import Mathlib

/-!
Shallow embedding of the reconciliation engine of this repository
(source file: src/packages/cli/src/models/status/StatusChecker.js).

The engine compares a local network descriptor (NetworkFile) against
ledger-derived facts (event histories and live reads exposed through a
resolved project handle) and reports every discrepancy through a sink
(visitor) hook.  Here each check is a pure function returning the list
of hooks it fires, in program order; the whole run is the concatenation
of those lists.  JavaScript `undefined` for optional descriptor fields
is modelled as `Option.none`; machine addresses and hashes are plain
strings, exactly as in the source.

External collaborators that are not part of this repository
(zos-lib projects, web3, the bytecode digest utility) are kept abstract
as function-valued parameters; the event scanner (EventsFilter, a file
of this repository that only returns the chronological event list) is
modelled as the chronological event-list fields of the project handle.
-/

namespace ZosStatus

/-- The zero sentinel address, verbatim from the source. -/
def ZERO_ADDRESS : String := "0x0000000000000000000000000000000000000000"

/-- One ImplementationChanged event, with the two args the source reads. -/
structure ImplEvent where
  contractName : String
  implementation : String
deriving DecidableEq, Repr, Inhabited

/-- One reconciled implementation entry, as produced by
the method _fetchOnChainImplementations.  The JS field name is a
reserved word in Lean, so it is spelled aliasName here. -/
structure ImplInfo where
  aliasName : String
  address : String
deriving DecidableEq, Repr, Inhabited

/-- One ProxyCreated event, with the single arg the source reads. -/
structure ProxyEvent where
  proxy : String
deriving DecidableEq, Repr, Inhabited

/-- One reconciled proxy entry, as pushed by _fetchOnChainProxies. -/
structure ProxyInfo where
  aliasName : String
  implementation : String
  address : String
deriving DecidableEq, Repr, Inhabited

/-- One contract entry of the local descriptor. -/
structure ContractInfo where
  address : String
  bodyBytecodeHash : String
deriving DecidableEq, Repr, Inhabited

/-- One proxy entry of the local descriptor. -/
structure ProxyEntry where
  aliasName : String
  address : String
  implementation : String
deriving DecidableEq, Repr, Inhabited

/-- The local network descriptor (the networkFile collaborator), with
exactly the fields StatusChecker reads.  Fields that can be absent in
the JSON file (JS undefined) are Options. -/
structure NetworkFile where
  isLib : Bool
  version : String
  packageAddress : String
  appAddress : Option String
  providerAddress : Option String
  stdlibAddress : Option String
  contracts : List (String × ContractInfo)
  proxies : List ProxyEntry
deriving Repr, Inhabited

/-- networkFile.hasContract(alias). -/
def NetworkFile.hasContract (nf : NetworkFile) (a : String) : Bool :=
  (nf.contracts.find? (fun p => p.1 == a)).isSome

/-- networkFile.contract(alias).  Every call site in the source is
guarded by hasContract or iterates over contractAliases, so the default
value is never observed. -/
def NetworkFile.contract (nf : NetworkFile) (a : String) : ContractInfo :=
  ((nf.contracts.find? (fun p => p.1 == a)).map Prod.snd).getD default

/-- networkFile.contractAliases. -/
def NetworkFile.contractAliases (nf : NetworkFile) : List String :=
  nf.contracts.map Prod.fst

/-- networkFile.proxiesList(). -/
def NetworkFile.proxiesList (nf : NetworkFile) : List ProxyEntry :=
  nf.proxies

/-- The resolved deployment handle (LibProject or AppProject of zos-lib)
together with the ledger facts read through it: project.version,
project.package.address, getCurrentDirectory().address,
currentStdlib(), the chronological ImplementationChanged history of the
directory contract, the ProxyCreated history of the factory, and the
live getProxyImplementation lookup. -/
structure ProjectHandle where
  version : String
  packageAddress : String
  directoryAddress : String
  currentStdlib : String
  implEvents : List ImplEvent
  proxyEvents : List ProxyEvent
  getProxyImplementation : String → String

/-- External bytecode capabilities: web3.eth.getCode and the
bytecodeDigest utility imported from ../../utils/contracts (a file of
this repository that is not under src; kept abstract since no claim
depends on its internals). -/
structure EthEnv where
  getCode : String → String
  bytecodeDigest : String → String

/-- The sink (visitor) hook calls, one constructor per method invoked by
StatusChecker, carrying exactly the arguments passed at each call site.
The constructor onUnknownRemoteContract appears in the specification
hook enumeration and is included so that statements about it can be
made; the source never invokes it. -/
inductive Hook where
  | onMismatchingVersion (expected observed : String)
  | onMismatchingPackage (expected observed : String)
  | onMismatchingProvider (expected : Option String) (observed : String)
  | onMismatchingStdlib (expected observed : String)
  | onMissingRemoteContract (expected observed : String) (aliasName address : String)
  | onUnknownRemoteContract (expected observed : String) (aliasName address : String)
  | onMismatchingContractAddress (expected observed : String) (aliasName address : String)
  | onMismatchingContractBodyBytecode (expected observed : String) (aliasName address bodyBytecodeHash : String)
  | onUnregisteredLocalContract (expected observed : String) (aliasName address : String)
  | onMissingRemoteProxy (expected observed : String) (aliasName address implementation : String)
  | onMismatchingProxyAlias (expected observed : String) (aliasName address implementation : String)
  | onMismatchingProxyImplementation (expected observed : String) (aliasName address implementation : String)
  | onUnregisteredLocalProxy (expected observed : String) (aliasName address implementation : String)
  | onMultipleProxyImplementations (expected : String) (observed : Nat) (implementation : String)
  | onUnregisteredProxyImplementation (expected observed : String) (address implementation : String)
  | onEndChecking
deriving DecidableEq, Repr, Inhabited

/-- The discrepancy kind of a hook, used to classify traces. -/
inductive HookKind where
  | mismatchingVersion
  | mismatchingPackage
  | mismatchingProvider
  | mismatchingStdlib
  | missingRemoteContract
  | unknownRemoteContract
  | mismatchingContractAddress
  | mismatchingContractBodyBytecode
  | unregisteredLocalContract
  | missingRemoteProxy
  | mismatchingProxyAlias
  | mismatchingProxyImplementation
  | unregisteredLocalProxy
  | multipleProxyImplementations
  | unregisteredProxyImplementation
  | endChecking
deriving DecidableEq, Repr, Inhabited

/-- Kind of a hook. -/
def Hook.kind : Hook → HookKind
  | .onMismatchingVersion _ _ => .mismatchingVersion
  | .onMismatchingPackage _ _ => .mismatchingPackage
  | .onMismatchingProvider _ _ => .mismatchingProvider
  | .onMismatchingStdlib _ _ => .mismatchingStdlib
  | .onMissingRemoteContract _ _ _ _ => .missingRemoteContract
  | .onUnknownRemoteContract _ _ _ _ => .unknownRemoteContract
  | .onMismatchingContractAddress _ _ _ _ => .mismatchingContractAddress
  | .onMismatchingContractBodyBytecode _ _ _ _ _ => .mismatchingContractBodyBytecode
  | .onUnregisteredLocalContract _ _ _ _ => .unregisteredLocalContract
  | .onMissingRemoteProxy _ _ _ _ _ => .missingRemoteProxy
  | .onMismatchingProxyAlias _ _ _ _ _ => .mismatchingProxyAlias
  | .onMismatchingProxyImplementation _ _ _ _ _ => .mismatchingProxyImplementation
  | .onUnregisteredLocalProxy _ _ _ _ _ => .unregisteredLocalProxy
  | .onMultipleProxyImplementations _ _ _ => .multipleProxyImplementations
  | .onUnregisteredProxyImplementation _ _ _ _ => .unregisteredProxyImplementation
  | .onEndChecking => .endChecking

/-- The proxy address carried in the metadata of a proxy-family hook.
The multiple-implementations hook carries no address in the source, so
it yields none. -/
def Hook.proxyAddressOf : Hook → Option String
  | .onMissingRemoteProxy _ _ _ address _ => some address
  | .onMismatchingProxyAlias _ _ _ address _ => some address
  | .onMismatchingProxyImplementation _ _ _ address _ => some address
  | .onUnregisteredLocalProxy _ _ _ address _ => some address
  | .onUnregisteredProxyImplementation _ _ address _ => some address
  | _ => none

/-- The contract alias carried in the metadata of a contract-family hook. -/
def Hook.contractAliasOf : Hook → Option String
  | .onMissingRemoteContract _ _ aliasName _ => some aliasName
  | .onUnknownRemoteContract _ _ aliasName _ => some aliasName
  | .onMismatchingContractAddress _ _ aliasName _ => some aliasName
  | .onMismatchingContractBodyBytecode _ _ aliasName _ _ => some aliasName
  | .onUnregisteredLocalContract _ _ aliasName _ => some aliasName
  | _ => none

/-- True for the three per-proxy checks that are driven by the alias
resolved from the implementation set. -/
def Hook.isAliasBasedProxyHook (h : Hook) : Bool :=
  h.kind == .missingRemoteProxy || h.kind == .mismatchingProxyAlias ||
    h.kind == .mismatchingProxyImplementation

/-- JavaScript Array.prototype.filter with the (element, index) callback,
starting at a given index. -/
def filterIdxFrom (p : α → Nat → Bool) : Nat → List α → List α
  | _, [] => []
  | i, a :: as =>
    if p a i then a :: filterIdxFrom p (i + 1) as else filterIdxFrom p (i + 1) as

/-- JavaScript Array.prototype.filter with the (element, index) callback. -/
def filterIdx (p : α → Nat → Bool) (l : List α) : List α :=
  filterIdxFrom p 0 l

/-- Helper for lastIndexOf: the largest index holding the value, if any. -/
def lastIndexOfAux [BEq α] : List α → α → Option Nat
  | [], _ => none
  | a :: as, x =>
    match lastIndexOfAux as x with
    | some i => some (i + 1)
    | none => if a == x then some 0 else none

/-- JavaScript Array.prototype.lastIndexOf: the largest index holding the
value, or -1 when absent. -/
def lastIndexOf [BEq α] (l : List α) (x : α) : Int :=
  match lastIndexOfAux l x with
  | some i => (i : Int)
  | none => -1

/-- The method _fetchOnChainImplementations: map the chronological
ImplementationChanged history to its contract names, keep each event
whose index is the last index of its name (last chronological event per
alias wins), drop events whose implementation is the zero sentinel, and
package the survivors as alias-address pairs. -/
def fetchOnChainImplementations (allEvents : List ImplEvent) : List ImplInfo :=
  let contractsAlias := allEvents.map (fun event => event.contractName)
  ((filterIdx
      (fun event index => lastIndexOf contractsAlias event.contractName == (index : Int))
      allEvents).filter
    (fun event => event.implementation != ZERO_ADDRESS)).map
    (fun event => { aliasName := event.contractName, address := event.implementation })

/-- The method checkVersion. -/
def checkVersion (nf : NetworkFile) (p : ProjectHandle) : List Hook :=
  let observed := p.version
  let expected := nf.version
  if observed != expected then [Hook.onMismatchingVersion expected observed] else []

/-- The method checkPackage. -/
def checkPackage (nf : NetworkFile) (p : ProjectHandle) : List Hook :=
  let observed := p.packageAddress
  let expected := nf.packageAddress
  if observed != expected then [Hook.onMismatchingPackage expected observed] else []

/-- The method checkProvider: the observed directory address is compared
verbatim against the descriptor field (which may be absent). -/
def checkProvider (nf : NetworkFile) (p : ProjectHandle) : List Hook :=
  let observed := p.directoryAddress
  let expected := nf.providerAddress
  if some observed != expected then [Hook.onMismatchingProvider expected observed] else []

/-- JavaScript a-or-b on an optional string: undefined and the empty
string are falsy and select the fallback. -/
def jsOr (a : Option String) (b : String) : String :=
  match a with
  | none => b
  | some s => if s == "" then b else s

/-- The method checkStdlib: the observed stdlib address is normalized
from the zero sentinel to the word none, and the expected side falls
back to the word none when the descriptor field is falsy. -/
def checkStdlib (nf : NetworkFile) (p : ProjectHandle) : List Hook :=
  let observed := if p.currentStdlib == ZERO_ADDRESS then "none" else p.currentStdlib
  let expected := jsOr nf.stdlibAddress "none"
  if observed != expected then [Hook.onMismatchingStdlib expected observed] else []

/-- The method _checkImplementationAddress. -/
def checkImplementationAddress (nf : NetworkFile) (a address : String) : List Hook :=
  let expected := (nf.contract a).address
  if address != expected then
    [Hook.onMismatchingContractAddress expected address a address]
  else []

/-- The method _checkImplementationBytecode. -/
def checkImplementationBytecode (nf : NetworkFile) (env : EthEnv) (a address : String) :
    List Hook :=
  let expected := (nf.contract a).bodyBytecodeHash
  let observed := env.bytecodeDigest (env.getCode address)
  if observed != expected then
    [Hook.onMismatchingContractBodyBytecode expected observed a address observed]
  else []

/-- The method _checkRemoteImplementation. -/
def checkRemoteImplementation (nf : NetworkFile) (env : EthEnv) (info : ImplInfo) :
    List Hook :=
  if nf.hasContract info.aliasName then
    checkImplementationAddress nf info.aliasName info.address ++
      checkImplementationBytecode nf env info.aliasName info.address
  else
    [Hook.onMissingRemoteContract "none" "one" info.aliasName info.address]

/-- The method _checkUnregisteredLocalImplementations. -/
def checkUnregisteredLocalImplementations (nf : NetworkFile)
    (implementationsInfo : List ImplInfo) : List Hook :=
  let foundAliases := implementationsInfo.map (fun info => info.aliasName)
  (nf.contractAliases.filter (fun a => !(foundAliases.contains a))).map
    (fun a => Hook.onUnregisteredLocalContract "one" "none" a (nf.contract a).address)

/-- The method checkImplementations: report each reconciled remote entry,
then the local-only aliases. -/
def checkImplementations (nf : NetworkFile) (p : ProjectHandle) (env : EthEnv) :
    List Hook :=
  let implementationsInfo := fetchOnChainImplementations p.implEvents
  (implementationsInfo.map (checkRemoteImplementation nf env)).flatten ++
    checkUnregisteredLocalImplementations nf implementationsInfo

/-- The body of the per-event task inside _fetchOnChainProxies: resolve
the current implementation of the proxy, match it against the reconciled
implementation set; more than one match fires the multiple hook, zero
matches fires the unregistered hook, exactly one match yields a proxy
entry for the later per-proxy checks. -/
def proxyEventResult (implementationsInfo : List ImplInfo)
    (getImpl : String → String) (event : ProxyEvent) : List Hook × List ProxyInfo :=
  let address := event.proxy
  let implementation := getImpl address
  let matchingImplementations :=
    implementationsInfo.filter (fun info => info.address == implementation)
  if 1 < matchingImplementations.length then
    ([Hook.onMultipleProxyImplementations "one" matchingImplementations.length implementation],
      [])
  else
    match matchingImplementations with
    | [] => ([Hook.onUnregisteredProxyImplementation "one" "none" address implementation], [])
    | info :: _ =>
      ([], [{ aliasName := info.aliasName, implementation := implementation, address := address }])

/-- The method _fetchOnChainProxies.  The source launches the per-event
tasks concurrently under Promise.all and each task pushes into a shared
array; this embedding gives the joined outcome with hooks and entries in
event order (the single-threaded event-loop denotation up to task
interleaving). -/
def fetchOnChainProxies (p : ProjectHandle) : List Hook × List ProxyInfo :=
  let implementationsInfo := fetchOnChainImplementations p.implEvents
  let results := p.proxyEvents.map (proxyEventResult implementationsInfo p.getProxyImplementation)
  ((results.map Prod.fst).flatten, (results.map Prod.snd).flatten)

/-- The method _checkProxyAlias. -/
def checkProxyAlias (proxy : ProxyEntry) (info : ProxyInfo) : List Hook :=
  let expected := proxy.aliasName
  if info.aliasName != expected then
    [Hook.onMismatchingProxyAlias expected info.aliasName info.aliasName info.address
      info.implementation]
  else []

/-- The method _checkProxyImplementation. -/
def checkProxyImplementation (proxy : ProxyEntry) (info : ProxyInfo) : List Hook :=
  let expected := proxy.implementation
  if info.implementation != expected then
    [Hook.onMismatchingProxyImplementation expected info.implementation info.aliasName
      info.address info.implementation]
  else []

/-- The method _checkRemoteProxy. -/
def checkRemoteProxy (nf : NetworkFile) (info : ProxyInfo) : List Hook :=
  match nf.proxiesList.find? (fun proxy => proxy.address == info.address) with
  | some matchingProxy =>
    checkProxyAlias matchingProxy info ++ checkProxyImplementation matchingProxy info
  | none =>
    [Hook.onMissingRemoteProxy "none" "one" info.aliasName info.address info.implementation]

/-- The method _checkUnregisteredLocalProxies. -/
def checkUnregisteredLocalProxies (nf : NetworkFile) (proxiesInfo : List ProxyInfo) :
    List Hook :=
  let foundAddresses := proxiesInfo.map (fun info => info.address)
  (nf.proxiesList.filter (fun proxy => !(foundAddresses.contains proxy.address))).map
    (fun proxy =>
      Hook.onUnregisteredLocalProxy "one" "none" proxy.aliasName proxy.address
        proxy.implementation)

/-- The method checkProxies: the hooks fired while fetching, then the
per-proxy checks over the reconciled entries, then the local-only
proxies. -/
def checkProxies (nf : NetworkFile) (p : ProjectHandle) (_env : EthEnv) : List Hook :=
  let fetched := fetchOnChainProxies p
  fetched.1 ++ ((fetched.2.map (checkRemoteProxy nf)).flatten ++
    checkUnregisteredLocalProxies nf fetched.2)

/-- The method checkApp. -/
def checkApp (nf : NetworkFile) (p : ProjectHandle) (env : EthEnv) : List Hook :=
  checkVersion nf p ++ checkPackage nf p ++ checkProvider nf p ++ checkStdlib nf p ++
    checkImplementations nf p env ++ checkProxies nf p env

/-- The method checkLib. -/
def checkLib (nf : NetworkFile) (p : ProjectHandle) (env : EthEnv) : List Hook :=
  checkProvider nf p ++ checkImplementations nf p env

/-- The project-fetching capability of zos-lib: LibProject.fetch keyed by
package address and version, AppProject.fetch keyed by the (possibly
absent) app address.  Fetching is fallible. -/
structure Ledger where
  libProjectFetch : String → String → Except String ProjectHandle
  appProjectFetch : Option String → Except String ProjectHandle

/-- The mutable checker state: the cached project handle field and a
count of the ledger resolutions performed so far (for stating that the
cache suppresses repeated resolution). -/
structure ProjState where
  cached : Option ProjectHandle
  fetchCount : Nat

/-- JavaScript string interpolation of a possibly undefined value. -/
def jsShow (a : Option String) : String :=
  match a with
  | some s => s
  | none => "undefined"

/-- The dispatch inside the method project: LibProject.fetch for a
library descriptor, AppProject.fetch otherwise. -/
def fetchProject (led : Ledger) (nf : NetworkFile) : Except String ProjectHandle :=
  if nf.isLib then led.libProjectFetch nf.packageAddress nf.version
  else led.appProjectFetch nf.appAddress

/-- The method project: return the cached handle if present, otherwise
resolve and cache it; a resolution failure is rethrown as a plain Error
whose message interpolates networkFile.appAddress.  The second argument
given to the JS Error constructor is discarded by JavaScript, so the
raised value carries the message only, which the String error type
models faithfully. -/
def projectCall (led : Ledger) (nf : NetworkFile) (st : ProjState) :
    Except String (ProjectHandle × ProjState) :=
  match st.cached with
  | some p => Except.ok (p, st)
  | none =>
    match fetchProject led nf with
    | Except.ok p =>
      Except.ok (p, { cached := some p, fetchCount := st.fetchCount + 1 })
    | Except.error _ =>
      Except.error ("Cannot fetch project contract from address " ++ jsShow nf.appAddress ++ ".")

/-- The method call: resolve the project handle (aborting on failure
before any hook fires), run the library or the app check sequence, then
fire onEndChecking.  The informational log line is elided. -/
def call (led : Ledger) (nf : NetworkFile) (env : EthEnv) (st : ProjState) :
    Except String (List Hook × ProjState) :=
  match projectCall led nf st with
  | Except.error e => Except.error e
  | Except.ok (p, st) =>
    Except.ok ((if nf.isLib then checkLib nf p env else checkApp nf p env) ++
      [Hook.onEndChecking], st)

/-- The entries of the reconciled implementation set whose address equals
the live implementation of the given proxy address: the list the
per-event task of _fetchOnChainProxies calls matchingImplementations. -/
def matchingFor (p : ProjectHandle) (addr : String) : List ImplInfo :=
  (fetchOnChainImplementations p.implEvents).filter
    (fun info => info.address == p.getProxyImplementation addr)

/-! Concrete instances used by the witnesses and counterexamples below. -/

/-- A bytecode environment with inert reads. -/
def envNull : EthEnv := { getCode := fun _ => "", bytecodeDigest := fun _ => "" }

/-- A minimal app descriptor. -/
def nfBase : NetworkFile :=
  { isLib := false, version := "1.0", packageAddress := "0xPKG", appAddress := some "0xAPP",
    providerAddress := some "0xDIR", stdlibAddress := none, contracts := [], proxies := [] }

/-- A minimal project handle. -/
def phBase : ProjectHandle :=
  { version := "1.0", packageAddress := "0xPKG", directoryAddress := "0xDIR",
    currentStdlib := ZERO_ADDRESS, implEvents := [], proxyEvents := [],
    getProxyImplementation := fun _ => "" }

/-- An event history where the alias Token is re-registered and the
alias Lib ends unregistered at the zero sentinel. -/
def esW1 : List ImplEvent :=
  [{ contractName := "Token", implementation := "0xA" },
   { contractName := "Token", implementation := "0xB" },
   { contractName := "Lib", implementation := ZERO_ADDRESS }]

/-- A descriptor listing the proxy at address 0xP. -/
def nfC2 : NetworkFile :=
  { nfBase with proxies := [{ aliasName := "TokenA", address := "0xP", implementation := "0xI" }] }

/-- A handle where two aliases are registered to the implementation 0xI
and the single created proxy 0xP resolves to 0xI. -/
def phC2 : ProjectHandle :=
  { phBase with
    implEvents := [{ contractName := "TokenA", implementation := "0xI" },
                   { contractName := "TokenB", implementation := "0xI" }],
    proxyEvents := [{ proxy := "0xP" }],
    getProxyImplementation := fun _ => "0xI" }

/-- A descriptor with no provider address. -/
def nfC3 : NetworkFile := { nfBase with providerAddress := none }

/-- A handle whose directory address is the zero sentinel. -/
def phC3 : ProjectHandle := { phBase with directoryAddress := ZERO_ADDRESS }

/-- A descriptor with no contract entries. -/
def nfC4 : NetworkFile := nfBase

/-- A handle whose history registers the alias Token at 0xA. -/
def phC4 : ProjectHandle :=
  { phBase with implEvents := [{ contractName := "Token", implementation := "0xA" }] }

/-- A library descriptor with no app address. -/
def nfC5 : NetworkFile := { nfBase with isLib := true, appAddress := none }

/-- A ledger on which resolving the library project fails. -/
def ledC5 : Ledger :=
  { libProjectFetch := fun _ _ => Except.error "No contract deployed at 0xPKG",
    appProjectFetch := fun _ => Except.error "unused" }

/-- A descriptor with no proxies. -/
def nfW6 : NetworkFile := nfBase

/-- A handle where the single created proxy resolves to an
implementation matching no reconciled entry. -/
def phW6 : ProjectHandle :=
  { phBase with
    proxyEvents := [{ proxy := "0xP" }],
    getProxyImplementation := fun _ => "0xI" }

/-- A library descriptor. -/
def nfW7 : NetworkFile := { nfBase with isLib := true, appAddress := none }

/-- A handle for the library run. -/
def phW7 : ProjectHandle := phBase

/-- A ledger on which the library project resolves. -/
def ledW7 : Ledger :=
  { libProjectFetch := fun _ _ => Except.ok phW7,
    appProjectFetch := fun _ => Except.error "unused" }

/-- A descriptor with no stdlib address. -/
def nfW8 : NetworkFile := nfBase

/-- A handle whose stdlib read returns the zero sentinel. -/
def phW8 : ProjectHandle := phBase

/-- A descriptor for the caching witness. -/
def nfW10 : NetworkFile := nfBase

/-- A handle for the caching witness. -/
def phW10 : ProjectHandle := phBase

/-- A ledger on which the app project resolves. -/
def ledW10 : Ledger :=
  { libProjectFetch := fun _ _ => Except.error "unused",
    appProjectFetch := fun _ => Except.ok phW10 }

/-! Generic lemmas about the JavaScript array operations used above. -/

/-- Every element kept by the indexed filter sits at some index of the
input satisfying the callback at the shifted position. -/
theorem mem_filterIdxFrom {α : Type _} (p : α → Nat → Bool) (k : Nat) (l : List α) (a : α)
    (h : a ∈ filterIdxFrom p k l) : ∃ j, l[j]? = some a ∧ p a (k + j) = true := by
  induction l generalizing k with
  | nil => simp [filterIdxFrom] at h
  | cons x xs ih =>
    simp only [filterIdxFrom] at h
    by_cases hp : p x k
    · rw [if_pos hp] at h
      rcases List.mem_cons.mp h with rfl | hmem
      · exact ⟨0, by simp, by simpa using hp⟩
      · obtain ⟨j, hj, hpj⟩ := ih (k + 1) hmem
        refine ⟨j + 1, by simpa using hj, ?_⟩
        have e : k + (j + 1) = k + 1 + j := by omega
        rw [e]; exact hpj
    · rw [if_neg hp] at h
      obtain ⟨j, hj, hpj⟩ := ih (k + 1) h
      refine ⟨j + 1, by simpa using hj, ?_⟩
      have e : k + (j + 1) = k + 1 + j := by omega
      rw [e]; exact hpj

/-- If the pair of a kept position and a passing element is unique, the
filtered-again output has at most one element. -/
theorem filterIdxFrom_filter_le_one {α : Type _} (p : α → Nat → Bool) (q : α → Bool)
    (k : Nat) (l : List α)
    (h : ∀ j1 j2 a1 a2, l[j1]? = some a1 → l[j2]? = some a2 →
      p a1 (k + j1) = true → q a1 = true → p a2 (k + j2) = true → q a2 = true → j1 = j2) :
    ((filterIdxFrom p k l).filter q).length ≤ 1 := by
  induction l generalizing k with
  | nil => simp [filterIdxFrom]
  | cons x xs ih =>
    simp only [filterIdxFrom]
    by_cases hp : p x k
    · rw [if_pos hp, List.filter_cons]
      by_cases hq : q x
      · rw [if_pos hq]
        have hnil : (filterIdxFrom p (k + 1) xs).filter q = [] := by
          rw [List.filter_eq_nil_iff]
          intro b hb hqb
          obtain ⟨j, hj, hpj⟩ := mem_filterIdxFrom p (k + 1) xs b hb
          have e : k + 1 + j = k + (j + 1) := by omega
          rw [e] at hpj
          have := h 0 (j + 1) x b (by simp) (by simpa using hj)
            (by simpa using hp) hq hpj hqb
          omega
        rw [hnil]
        simp
      · rw [if_neg hq]
        refine ih (k + 1) ?_
        intro j1 j2 a1 a2 h1 h2 hp1 hq1 hp2 hq2
        have e1 : k + 1 + j1 = k + (j1 + 1) := by omega
        have e2 : k + 1 + j2 = k + (j2 + 1) := by omega
        rw [e1] at hp1; rw [e2] at hp2
        have := h (j1 + 1) (j2 + 1) a1 a2 (by simpa using h1) (by simpa using h2)
          hp1 hq1 hp2 hq2
        omega
    · rw [if_neg hp]
      refine ih (k + 1) ?_
      intro j1 j2 a1 a2 h1 h2 hp1 hq1 hp2 hq2
      have e1 : k + 1 + j1 = k + (j1 + 1) := by omega
      have e2 : k + 1 + j2 = k + (j2 + 1) := by omega
      rw [e1] at hp1; rw [e2] at hp2
      have := h (j1 + 1) (j2 + 1) a1 a2 (by simpa using h1) (by simpa using h2)
        hp1 hq1 hp2 hq2
      omega

/-- The helper returns none exactly when the value is absent. -/
theorem lastIndexOfAux_eq_none_iff {α : Type _} [BEq α] [LawfulBEq α] (l : List α) (x : α) :
    lastIndexOfAux l x = none ↔ x ∉ l := by
  induction l with
  | nil => simp [lastIndexOfAux]
  | cons a as ih =>
    rw [lastIndexOfAux]
    cases haux : lastIndexOfAux as x with
    | some i =>
      have hmem : x ∈ as := by
        by_contra hx
        rw [ih.mpr hx] at haux
        cases haux
      simp [List.mem_cons, hmem]
    | none =>
      have hx : x ∉ as := ih.mp haux
      by_cases hax : a == x
      · have : a = x := eq_of_beq hax
        subst this
        simp
      · have hne : ¬ x = a := fun e => by subst e; simp at hax
        simp [hax, List.mem_cons, hx, hne]

/-- Specification of the helper: the returned index holds the value and
no later index does. -/
theorem lastIndexOfAux_spec {α : Type _} [BEq α] [LawfulBEq α] (l : List α) (x : α) (i : Nat)
    (h : lastIndexOfAux l x = some i) :
    l[i]? = some x ∧ ∀ j, i < j → l[j]? ≠ some x := by
  induction l generalizing i with
  | nil => cases h
  | cons a as ih =>
    rw [lastIndexOfAux] at h
    cases haux : lastIndexOfAux as x with
    | some i2 =>
      rw [haux] at h
      have hi : i = i2 + 1 := by cases h; rfl
      subst hi
      obtain ⟨h1, h2⟩ := ih i2 haux
      refine ⟨by simpa using h1, ?_⟩
      intro j hj
      cases j with
      | zero => omega
      | succ j2 =>
        have : i2 < j2 := by omega
        simpa using h2 j2 this
    | none =>
      rw [haux] at h
      by_cases hax : a == x
      · rw [if_pos hax] at h
        have hi : i = 0 := by cases h; rfl
        subst hi
        have hae : a = x := eq_of_beq hax
        refine ⟨by simp [hae], ?_⟩
        intro j hj
        cases j with
        | zero => omega
        | succ j2 =>
          intro hcontra
          have hmem : x ∈ as := List.mem_iff_getElem?.mpr ⟨j2, by simpa using hcontra⟩
          exact (lastIndexOfAux_eq_none_iff as x).mp haux hmem
      · rw [if_neg hax] at h
        cases h

/-- The Int-valued lastIndexOf equals a natural index exactly when the
helper returns that index. -/
theorem lastIndexOf_beq_iff {α : Type _} [BEq α] [LawfulBEq α] (l : List α) (x : α) (i : Nat) :
    (lastIndexOf l x == (i : Int)) = true ↔ lastIndexOfAux l x = some i := by
  rw [lastIndexOf]
  cases haux : lastIndexOfAux l x with
  | some i2 =>
    simp only [beq_iff_eq, Option.some.injEq]
    constructor
    · intro he; omega
    · intro he; omega
  | none =>
    simp only [beq_iff_eq]
    constructor
    · intro he; omega
    · intro he; cases he

/-- Length of a filtered flattened list, slice by slice. -/
theorem flatten_filter_length {α : Type _} (ls : List (List α)) (q : α → Bool) :
    (ls.flatten.filter q).length = (ls.map (fun l => (l.filter q).length)).sum := by
  induction ls with
  | nil => simp
  | cons l ls ih => simp [List.filter_append, ih, Function.comp_def]

/-- Counting the filtered flattened image: when each slice contributes
one element exactly when its generator satisfies a condition, the total
is the number of generators satisfying the condition. -/
theorem map_flatten_filter_length {α β : Type _} (l : List α) (f : α → List β)
    (q : β → Bool) (c : α → Bool)
    (h : ∀ x ∈ l, ((f x).filter q).length = if c x then 1 else 0) :
    ((l.map f).flatten.filter q).length = (l.filter c).length := by
  induction l with
  | nil => simp
  | cons x xs ih =>
    simp only [List.map_cons, List.flatten_cons, List.filter_append, List.length_append]
    rw [ih (fun y hy => h y (List.mem_cons_of_mem x hy)),
      h x (List.mem_cons_self x xs), List.filter_cons]
    by_cases hc : c x
    · simp [hc]
      omega
    · simp [hc]

/-- Counting a filtered mapped list through a pointwise condition. -/
theorem map_filter_length_count {α β : Type _} (l : List α) (f : α → β)
    (q : β → Bool) (c : α → Bool)
    (h : ∀ x ∈ l, q (f x) = c x) :
    ((l.map f).filter q).length = (l.filter c).length := by
  induction l with
  | nil => simp
  | cons x xs ih =>
    simp only [List.map_cons, List.filter_cons]
    rw [h x (List.mem_cons_self x xs)]
    have ihe := ih (fun y hy => h y (List.mem_cons_of_mem x hy))
    by_cases hc : c x
    · simp [hc, ihe]
    · simp [hc, ihe]

/-- A list of length at most one containing an element is that singleton. -/
theorem length_le_one_mem_eq {α : Type _} (l : List α) (h : l.length ≤ 1) (a : α)
    (ha : a ∈ l) : l = [a] := by
  match l, h with
  | [], _ => cases ha
  | [x], _ => simp_all

/-- If position i holds a passing element and every later position fails
the predicate, the filtered list ends with that element. -/
theorem getLast?_filter_of_last {α : Type _} (q : α → Bool) (l : List α) (i : Nat) (a : α)
    (h1 : l[i]? = some a) (hq : q a = true)
    (h2 : ∀ j, i < j → ∀ b, l[j]? = some b → q b = false) :
    (l.filter q).getLast? = some a := by
  induction l generalizing i with
  | nil => cases h1
  | cons x xs ih =>
    cases i with
    | zero =>
      have hax : x = a := by simpa using h1
      subst hax
      rw [List.filter_cons, if_pos hq]
      have hnil : xs.filter q = [] := by
        rw [List.filter_eq_nil_iff]
        intro b hb hqb
        obtain ⟨j, hj⟩ := List.mem_iff_getElem?.mp hb
        rw [h2 (j + 1) (by omega) b (by simpa using hj)] at hqb
        cases hqb
      rw [hnil]
      rfl
    | succ i2 =>
      have h1x : xs[i2]? = some a := by simpa using h1
      have h2x : ∀ j, i2 < j → ∀ b, xs[j]? = some b → q b = false := by
        intro j hj b hb
        exact h2 (j + 1) (by omega) b (by simpa using hb)
      have hrec := ih i2 h1x h2x
      rw [List.filter_cons]
      by_cases hqx : q x
      · rw [if_pos hqx]
        cases hxs : xs.filter q with
        | nil => rw [hxs] at hrec; cases hrec
        | cons y ys =>
          rw [hxs] at hrec
          rw [List.getLast?_cons_cons]
          exact hrec
      · rw [if_neg hqx]; exact hrec

/-! Lemmas about the implementation reconciliation. -/

/-- Every reconciled entry comes from an event sitting at the last index
of its alias, with a nonzero implementation. -/
theorem mem_fetchOnChainImplementations (es : List ImplEvent) (info : ImplInfo)
    (h : info ∈ fetchOnChainImplementations es) :
    ∃ e j, es[j]? = some e ∧ e.contractName = info.aliasName ∧
      e.implementation = info.address ∧ info.address ≠ ZERO_ADDRESS ∧
      lastIndexOfAux (es.map (fun ev => ev.contractName)) e.contractName = some j := by
  simp only [fetchOnChainImplementations] at h
  obtain ⟨e, he, heq⟩ := List.mem_map.mp h
  obtain ⟨hin, hz⟩ := List.mem_filter.mp he
  obtain ⟨j, hj, hpj⟩ := mem_filterIdxFrom _ 0 es e (by simpa [filterIdx] using hin)
  subst heq
  refine ⟨e, j, hj, rfl, rfl, by simpa using hz, ?_⟩
  have := (lastIndexOf_beq_iff (es.map (fun ev => ev.contractName)) e.contractName (0 + j)).mp
    (by simpa using hpj)
  simpa using this

/-- Every reconciled entry carries the address of the chronologically
last event of its alias, and that address is not the zero sentinel. -/
theorem fetchOnChainImplementations_last (es : List ImplEvent) (info : ImplInfo)
    (h : info ∈ fetchOnChainImplementations es) :
    ((es.filter (fun e => e.contractName == info.aliasName)).getLast?).map
        (fun e => e.implementation) = some info.address ∧
      info.address ≠ ZERO_ADDRESS := by
  obtain ⟨e, j, hj, hname, himpl, hnz, haux⟩ := mem_fetchOnChainImplementations es info h
  obtain ⟨hspec1, hspec2⟩ := lastIndexOfAux_spec _ _ _ haux
  have hcond : ∀ j2, j < j2 → ∀ b, es[j2]? = some b →
      (fun e2 => e2.contractName == info.aliasName) b = false := by
    intro j2 hj2 b hb
    have hbname : (es.map (fun ev => ev.contractName))[j2]? = some b.contractName := by
      rw [List.getElem?_map, hb]
      rfl
    have hne : b.contractName ≠ info.aliasName := by
      intro he
      rw [he, ← hname] at hbname
      exact hspec2 j2 hj2 hbname
    simpa using hne
  have hlast := getLast?_filter_of_last _ es j e hj (by simp [hname]) hcond
  exact ⟨by rw [hlast]; simp [himpl], hnz⟩

/-- The reconciled set holds at most one entry per alias. -/
theorem fetchOnChainImplementations_dedup (es : List ImplEvent) (a : String) :
    ((fetchOnChainImplementations es).filter (fun i => i.aliasName == a)).length ≤ 1 := by
  simp only [fetchOnChainImplementations]
  rw [map_filter_length_count _ _ _ (fun e => e.contractName == a) (fun e _ => rfl),
    List.filter_filter]
  refine filterIdxFrom_filter_le_one _ _ 0 es ?_
  intro j1 j2 a1 a2 h1 h2 hp1 hq1 hp2 hq2
  have hn1 : a1.contractName = a := by
    have := (Bool.and_eq_true _ _).mp hq1
    simpa using this.1
  have hn2 : a2.contractName = a := by
    have := (Bool.and_eq_true _ _).mp hq2
    simpa using this.1
  have e1 := (lastIndexOf_beq_iff (es.map (fun ev => ev.contractName)) a1.contractName (0 + j1)).mp
    (by simpa using hp1)
  have e2 := (lastIndexOf_beq_iff (es.map (fun ev => ev.contractName)) a2.contractName (0 + j2)).mp
    (by simpa using hp2)
  rw [hn1] at e1
  rw [hn2] at e2
  rw [e1] at e2
  have := Option.some.inj e2
  omega

/-- A reconciled entry is the unique entry of its alias. -/
theorem fetchOnChainImplementations_unique (es : List ImplEvent) (info : ImplInfo)
    (h : info ∈ fetchOnChainImplementations es) :
    (fetchOnChainImplementations es).filter (fun i => i.aliasName == info.aliasName) = [info] := by
  refine length_le_one_mem_eq _ (fetchOnChainImplementations_dedup es info.aliasName) info ?_
  exact List.mem_filter.mpr ⟨h, by simp⟩

/-! Lemmas about the proxy reconciliation. -/

/-- The joined fan-out, componentwise. -/
theorem fetchOnChainProxies_def (p : ProjectHandle) :
    fetchOnChainProxies p =
      ((p.proxyEvents.map (fun e =>
          (proxyEventResult (fetchOnChainImplementations p.implEvents)
            p.getProxyImplementation e).1)).flatten,
       (p.proxyEvents.map (fun e =>
          (proxyEventResult (fetchOnChainImplementations p.implEvents)
            p.getProxyImplementation e).2)).flatten) := by
  simp [fetchOnChainProxies, List.map_map, Function.comp_def]

/-- Trichotomy of the per-event task: ambiguous match, no match, or a
unique match. -/
theorem proxyEventResult_cases (p : ProjectHandle) (e : ProxyEvent) :
    (1 < (matchingFor p e.proxy).length ∧
      proxyEventResult (fetchOnChainImplementations p.implEvents) p.getProxyImplementation e =
        ([Hook.onMultipleProxyImplementations "one" (matchingFor p e.proxy).length
            (p.getProxyImplementation e.proxy)], [])) ∨
    (matchingFor p e.proxy = [] ∧ ¬ 1 < (matchingFor p e.proxy).length ∧
      proxyEventResult (fetchOnChainImplementations p.implEvents) p.getProxyImplementation e =
        ([Hook.onUnregisteredProxyImplementation "one" "none" e.proxy
            (p.getProxyImplementation e.proxy)], [])) ∨
    (∃ info rest, matchingFor p e.proxy = info :: rest ∧
      ¬ 1 < (matchingFor p e.proxy).length ∧
      proxyEventResult (fetchOnChainImplementations p.implEvents) p.getProxyImplementation e =
        ([], [ProxyInfo.mk info.aliasName (p.getProxyImplementation e.proxy) e.proxy])) := by
  by_cases hlt : 1 < (matchingFor p e.proxy).length
  · left
    refine ⟨hlt, ?_⟩
    have hlt2 : 1 < ((fetchOnChainImplementations p.implEvents).filter
        (fun info => info.address == p.getProxyImplementation e.proxy)).length := hlt
    simp only [proxyEventResult]
    rw [if_pos hlt2]
    rfl
  · have hlt2 : ¬ 1 < ((fetchOnChainImplementations p.implEvents).filter
        (fun info => info.address == p.getProxyImplementation e.proxy)).length := hlt
    cases hm : matchingFor p e.proxy with
    | nil =>
      right; left
      refine ⟨rfl, by simp, ?_⟩
      have hm2 : (fetchOnChainImplementations p.implEvents).filter
          (fun info => info.address == p.getProxyImplementation e.proxy) = [] := hm
      simp only [proxyEventResult]
      rw [if_neg hlt2, hm2]
    | cons info rest =>
      right; right
      refine ⟨info, rest, rfl, ?_, ?_⟩
      · rw [hm] at hlt
        exact hlt
      · have hm2 : (fetchOnChainImplementations p.implEvents).filter
            (fun info => info.address == p.getProxyImplementation e.proxy) = info :: rest := hm
        simp only [proxyEventResult]
        rw [if_neg hlt2, hm2]

/-- Every joined proxy entry corresponds to a unique (neither empty nor
ambiguous) match for its address. -/
theorem mem_snd_fetchOnChainProxies (p : ProjectHandle) (info : ProxyInfo)
    (h : info ∈ (fetchOnChainProxies p).2) :
    matchingFor p info.address ≠ [] ∧ ¬ 1 < (matchingFor p info.address).length := by
  rw [fetchOnChainProxies_def] at h
  obtain ⟨l, hl, hm⟩ := List.mem_flatten.mp h
  obtain ⟨e, he, hfe⟩ := List.mem_map.mp hl
  rw [← hfe] at hm
  rcases proxyEventResult_cases p e with ⟨hlt, hres⟩ | ⟨hz, hnlt, hres⟩ |
    ⟨i2, rest, hm2, hnlt, hres⟩
  · simp only [hres] at hm
    simp at hm
  · simp only [hres] at hm
    simp at hm
  · simp only [hres] at hm
    have hinfo : info = ProxyInfo.mk i2.aliasName (p.getProxyImplementation e.proxy) e.proxy := by
      simpa using hm
    subst hinfo
    have haddr : (ProxyInfo.mk i2.aliasName (p.getProxyImplementation e.proxy) e.proxy).address
        = e.proxy := rfl
    rw [haddr, hm2]
    exact ⟨by simp, by rw [← hm2]; exact hnlt⟩

/-- If the match for an address is empty or ambiguous, no joined proxy
entry carries that address. -/
theorem snd_filter_empty_of (p : ProjectHandle) (P : String)
    (h : matchingFor p P = [] ∨ 1 < (matchingFor p P).length) :
    (fetchOnChainProxies p).2.filter (fun info => info.address == P) = [] := by
  rw [List.filter_eq_nil_iff]
  intro info hmem hbeq
  have haddr : info.address = P := by simpa using hbeq
  obtain ⟨hne, hnlt⟩ := mem_snd_fetchOnChainProxies p info hmem
  rw [haddr] at hne hnlt
  rcases h with h | h
  · exact hne h
  · exact hnlt h

/-- checkProxies, decomposed into its three phases. -/
theorem checkProxies_eq (nf : NetworkFile) (p : ProjectHandle) (env : EthEnv) :
    checkProxies nf p env =
      (fetchOnChainProxies p).1 ++
        (((fetchOnChainProxies p).2.map (checkRemoteProxy nf)).flatten ++
          checkUnregisteredLocalProxies nf (fetchOnChainProxies p).2) := rfl

/-- Every hook of the per-proxy remote check carries the address of the
entry and is one of the three alias-based kinds. -/
theorem mem_checkRemoteProxy (nf : NetworkFile) (info : ProxyInfo) (h : Hook)
    (hm : h ∈ checkRemoteProxy nf info) :
    h.proxyAddressOf = some info.address ∧
      (h.kind = HookKind.missingRemoteProxy ∨ h.kind = HookKind.mismatchingProxyAlias ∨
        h.kind = HookKind.mismatchingProxyImplementation) := by
  cases hfind : nf.proxiesList.find? (fun proxy => proxy.address == info.address) with
  | some mp =>
    simp only [checkRemoteProxy, hfind] at hm
    rcases List.mem_append.mp hm with hma | hmi
    · by_cases hc : (info.aliasName != mp.aliasName) = true
      · rw [checkProxyAlias, if_pos hc] at hma
        have hbe : h = Hook.onMismatchingProxyAlias mp.aliasName info.aliasName info.aliasName
            info.address info.implementation := by simpa using hma
        subst hbe
        exact ⟨rfl, Or.inr (Or.inl rfl)⟩
      · rw [checkProxyAlias, if_neg hc] at hma
        cases hma
    · by_cases hc : (info.implementation != mp.implementation) = true
      · rw [checkProxyImplementation, if_pos hc] at hmi
        have hbe : h = Hook.onMismatchingProxyImplementation mp.implementation
            info.implementation info.aliasName info.address info.implementation := by
          simpa using hmi
        subst hbe
        exact ⟨rfl, Or.inr (Or.inr rfl)⟩
      · rw [checkProxyImplementation, if_neg hc] at hmi
        cases hmi
  | none =>
    simp only [checkRemoteProxy, hfind] at hm
    have hbe : h = Hook.onMissingRemoteProxy "none" "one" info.aliasName info.address
        info.implementation := by simpa using hm
    subst hbe
    exact ⟨rfl, Or.inl rfl⟩

/-- Every hook of the local-only proxy check is an unregistered-local
hook for a descriptor proxy whose address is not among the joined
addresses. -/
theorem mem_checkUnregisteredLocalProxies (nf : NetworkFile) (pis : List ProxyInfo) (h : Hook)
    (hm : h ∈ checkUnregisteredLocalProxies nf pis) :
    ∃ pr, pr ∈ nf.proxies ∧
      (pis.map (fun info => info.address)).contains pr.address = false ∧
      h = Hook.onUnregisteredLocalProxy "one" "none" pr.aliasName pr.address pr.implementation := by
  simp only [checkUnregisteredLocalProxies] at hm
  obtain ⟨pr, hpr, hfe⟩ := List.mem_map.mp hm
  obtain ⟨hprmem, hpass⟩ := List.mem_filter.mp hpr
  exact ⟨pr, by simpa [NetworkFile.proxiesList] using hprmem, by simpa using hpass, hfe.symm⟩

/-- One multiple-implementations hook fires per ambiguous proxy event,
and nothing else fires one. -/
theorem multi_count (nf : NetworkFile) (p : ProjectHandle) (env : EthEnv) :
    ((checkProxies nf p env).filter
        (fun h => h.kind == HookKind.multipleProxyImplementations)).length =
      (p.proxyEvents.filter (fun e => decide (1 < (matchingFor p e.proxy).length))).length := by
  rw [checkProxies_eq, List.filter_append, List.length_append, List.filter_append,
    List.length_append]
  have h2 : (((fetchOnChainProxies p).2.map (checkRemoteProxy nf)).flatten.filter
      (fun h => h.kind == HookKind.multipleProxyImplementations)).length = 0 := by
    rw [List.length_eq_zero, List.filter_eq_nil_iff]
    intro b hb hqb
    obtain ⟨l, hl, hbm⟩ := List.mem_flatten.mp hb
    obtain ⟨i2, hi2, hfe⟩ := List.mem_map.mp hl
    rw [← hfe] at hbm
    obtain ⟨_, hkind⟩ := mem_checkRemoteProxy nf i2 b hbm
    rcases hkind with hk | hk | hk <;> rw [hk] at hqb <;> simp at hqb
  have h3 : ((checkUnregisteredLocalProxies nf (fetchOnChainProxies p).2).filter
      (fun h => h.kind == HookKind.multipleProxyImplementations)).length = 0 := by
    rw [List.length_eq_zero, List.filter_eq_nil_iff]
    intro b hb hqb
    obtain ⟨pr, _, _, hbe⟩ := mem_checkUnregisteredLocalProxies nf _ b hb
    subst hbe
    simp [Hook.kind] at hqb
  have h1 : ((fetchOnChainProxies p).1.filter
      (fun h => h.kind == HookKind.multipleProxyImplementations)).length =
      (p.proxyEvents.filter (fun e => decide (1 < (matchingFor p e.proxy).length))).length := by
    rw [fetchOnChainProxies_def]
    refine map_flatten_filter_length _ _ _ _ ?_
    intro e _
    rcases proxyEventResult_cases p e with ⟨hlt, hres⟩ | ⟨hz, hnlt, hres⟩ |
      ⟨i2, rest, hm2, hnlt, hres⟩
    · rw [hres]
      simp [Hook.kind, hlt]
    · rw [hres]
      simp [Hook.kind, hnlt]
    · rw [hres]
      simp [hnlt]
  rw [h1, h2, h3]
  omega

/-- With no matching implementation for an address, one unregistered
hook fires per proxy event at that address, and nothing else fires
one carrying that address. -/
theorem unregImpl_count (nf : NetworkFile) (p : ProjectHandle) (env : EthEnv) (P : String)
    (hzero : matchingFor p P = []) :
    ((checkProxies nf p env).filter
        (fun h => h.kind == HookKind.unregisteredProxyImplementation &&
          h.proxyAddressOf == some P)).length =
      (p.proxyEvents.filter (fun e => e.proxy == P)).length := by
  rw [checkProxies_eq, List.filter_append, List.length_append, List.filter_append,
    List.length_append]
  have h2 : (((fetchOnChainProxies p).2.map (checkRemoteProxy nf)).flatten.filter
      (fun h => h.kind == HookKind.unregisteredProxyImplementation &&
        h.proxyAddressOf == some P)).length = 0 := by
    rw [List.length_eq_zero, List.filter_eq_nil_iff]
    intro b hb hqb
    obtain ⟨l, hl, hbm⟩ := List.mem_flatten.mp hb
    obtain ⟨i2, hi2, hfe⟩ := List.mem_map.mp hl
    rw [← hfe] at hbm
    obtain ⟨_, hkind⟩ := mem_checkRemoteProxy nf i2 b hbm
    obtain ⟨hq1, _⟩ := (Bool.and_eq_true _ _).mp hqb
    rcases hkind with hk | hk | hk <;> rw [hk] at hq1 <;> simp at hq1
  have h3 : ((checkUnregisteredLocalProxies nf (fetchOnChainProxies p).2).filter
      (fun h => h.kind == HookKind.unregisteredProxyImplementation &&
        h.proxyAddressOf == some P)).length = 0 := by
    rw [List.length_eq_zero, List.filter_eq_nil_iff]
    intro b hb hqb
    obtain ⟨pr, _, _, hbe⟩ := mem_checkUnregisteredLocalProxies nf _ b hb
    subst hbe
    simp [Hook.kind] at hqb
  have h1 : ((fetchOnChainProxies p).1.filter
      (fun h => h.kind == HookKind.unregisteredProxyImplementation &&
        h.proxyAddressOf == some P)).length =
      (p.proxyEvents.filter (fun e => e.proxy == P)).length := by
    rw [fetchOnChainProxies_def]
    refine map_flatten_filter_length _ _ _ _ ?_
    intro e _
    by_cases hep : e.proxy = P
    · rcases proxyEventResult_cases p e with ⟨hlt, hres⟩ | ⟨hz, hnlt, hres⟩ |
        ⟨i2, rest, hm2, hnlt, hres⟩
      · rw [hep, hzero] at hlt
        simp at hlt
      · rw [hres]
        simp [Hook.kind, Hook.proxyAddressOf, hep]
      · rw [hep, hzero] at hm2
        cases hm2
    · rcases proxyEventResult_cases p e with ⟨hlt, hres⟩ | ⟨hz, hnlt, hres⟩ |
        ⟨i2, rest, hm2, hnlt, hres⟩
      · rw [hres]
        simp [Hook.kind, hep]
      · rw [hres]
        simp [Hook.kind, Hook.proxyAddressOf, hep]
      · rw [hres]
        simp [hep]
  rw [h1, h2, h3]
  omega

/-- When no joined proxy entry carries an address, no alias-based
per-proxy hook carrying that address fires anywhere in checkProxies. -/
theorem aliasBased_count_zero (nf : NetworkFile) (p : ProjectHandle) (env : EthEnv) (P : String)
    (hsnd : (fetchOnChainProxies p).2.filter (fun info => info.address == P) = []) :
    ((checkProxies nf p env).filter
        (fun h => h.isAliasBasedProxyHook && h.proxyAddressOf == some P)).length = 0 := by
  rw [checkProxies_eq, List.filter_append, List.length_append, List.filter_append,
    List.length_append]
  have h1 : ((fetchOnChainProxies p).1.filter
      (fun h => h.isAliasBasedProxyHook && h.proxyAddressOf == some P)).length = 0 := by
    rw [fetchOnChainProxies_def]
    have := map_flatten_filter_length p.proxyEvents
      (fun e => (proxyEventResult (fetchOnChainImplementations p.implEvents)
        p.getProxyImplementation e).1)
      (fun h => h.isAliasBasedProxyHook && h.proxyAddressOf == some P)
      (fun _ => false) ?_
    · rw [this]
      simp
    · intro e _
      rcases proxyEventResult_cases p e with ⟨hlt, hres⟩ | ⟨hz, hnlt, hres⟩ |
        ⟨i2, rest, hm2, hnlt, hres⟩
      · simp only [hres]
        simp [Hook.isAliasBasedProxyHook, Hook.kind]
      · simp only [hres]
        simp [Hook.isAliasBasedProxyHook, Hook.kind]
      · simp only [hres]
        simp
  have h2 : (((fetchOnChainProxies p).2.map (checkRemoteProxy nf)).flatten.filter
      (fun h => h.isAliasBasedProxyHook && h.proxyAddressOf == some P)).length = 0 := by
    rw [List.length_eq_zero, List.filter_eq_nil_iff]
    intro b hb hqb
    obtain ⟨l, hl, hbm⟩ := List.mem_flatten.mp hb
    obtain ⟨i2, hi2, hfe⟩ := List.mem_map.mp hl
    rw [← hfe] at hbm
    obtain ⟨haddr, _⟩ := mem_checkRemoteProxy nf i2 b hbm
    obtain ⟨_, hq2⟩ := (Bool.and_eq_true _ _).mp hqb
    rw [haddr] at hq2
    have haP : i2.address = P := by simpa using hq2
    have : i2 ∈ (fetchOnChainProxies p).2.filter (fun info => info.address == P) :=
      List.mem_filter.mpr ⟨hi2, by simp [haP]⟩
    rw [hsnd] at this
    cases this
  have h3 : ((checkUnregisteredLocalProxies nf (fetchOnChainProxies p).2).filter
      (fun h => h.isAliasBasedProxyHook && h.proxyAddressOf == some P)).length = 0 := by
    rw [List.length_eq_zero, List.filter_eq_nil_iff]
    intro b hb hqb
    obtain ⟨pr, _, _, hbe⟩ := mem_checkUnregisteredLocalProxies nf _ b hb
    subst hbe
    simp [Hook.isAliasBasedProxyHook, Hook.kind] at hqb
  rw [h1, h2, h3]

/-- When no joined proxy entry carries an address, the local-only check
fires one unregistered-local hook per descriptor proxy listed at that
address, and nothing else fires one carrying that address. -/
theorem unregLocal_count (nf : NetworkFile) (p : ProjectHandle) (env : EthEnv) (P : String)
    (hsnd : (fetchOnChainProxies p).2.filter (fun info => info.address == P) = []) :
    ((checkProxies nf p env).filter
        (fun h => h.kind == HookKind.unregisteredLocalProxy &&
          h.proxyAddressOf == some P)).length =
      (nf.proxies.filter (fun pr => pr.address == P)).length := by
  rw [checkProxies_eq, List.filter_append, List.length_append, List.filter_append,
    List.length_append]
  have h1 : ((fetchOnChainProxies p).1.filter
      (fun h => h.kind == HookKind.unregisteredLocalProxy &&
        h.proxyAddressOf == some P)).length = 0 := by
    rw [fetchOnChainProxies_def]
    have := map_flatten_filter_length p.proxyEvents
      (fun e => (proxyEventResult (fetchOnChainImplementations p.implEvents)
        p.getProxyImplementation e).1)
      (fun h => h.kind == HookKind.unregisteredLocalProxy && h.proxyAddressOf == some P)
      (fun _ => false) ?_
    · rw [this]
      simp
    · intro e _
      rcases proxyEventResult_cases p e with ⟨hlt, hres⟩ | ⟨hz, hnlt, hres⟩ |
        ⟨i2, rest, hm2, hnlt, hres⟩
      · simp only [hres]
        simp [Hook.kind]
      · simp only [hres]
        simp [Hook.kind]
      · simp only [hres]
        simp
  have h2 : (((fetchOnChainProxies p).2.map (checkRemoteProxy nf)).flatten.filter
      (fun h => h.kind == HookKind.unregisteredLocalProxy &&
        h.proxyAddressOf == some P)).length = 0 := by
    rw [List.length_eq_zero, List.filter_eq_nil_iff]
    intro b hb hqb
    obtain ⟨l, hl, hbm⟩ := List.mem_flatten.mp hb
    obtain ⟨i2, hi2, hfe⟩ := List.mem_map.mp hl
    rw [← hfe] at hbm
    obtain ⟨_, hkind⟩ := mem_checkRemoteProxy nf i2 b hbm
    obtain ⟨hq1, _⟩ := (Bool.and_eq_true _ _).mp hqb
    rcases hkind with hk | hk | hk <;> rw [hk] at hq1 <;> simp at hq1
  have hcont : (((fetchOnChainProxies p).2.map (fun info => info.address)).contains P)
      = false := by
    by_contra hc
    have hc2 : (((fetchOnChainProxies p).2.map (fun info => info.address)).contains P)
        = true := by
      cases hb : (((fetchOnChainProxies p).2.map (fun info => info.address)).contains P)
      · exact absurd hb hc
      · rfl
    have hPmem : P ∈ (fetchOnChainProxies p).2.map (fun info => info.address) := by
      simpa [List.contains] using hc2
    obtain ⟨i2, hi2, haP⟩ := List.mem_map.mp hPmem
    have : i2 ∈ (fetchOnChainProxies p).2.filter (fun info => info.address == P) :=
      List.mem_filter.mpr ⟨hi2, by simp [haP]⟩
    rw [hsnd] at this
    cases this
  have h3 : ((checkUnregisteredLocalProxies nf (fetchOnChainProxies p).2).filter
      (fun h => h.kind == HookKind.unregisteredLocalProxy &&
        h.proxyAddressOf == some P)).length =
      (nf.proxies.filter (fun pr => pr.address == P)).length := by
    simp only [checkUnregisteredLocalProxies]
    rw [map_filter_length_count _ _ _ (fun pr => pr.address == P) ?_]
    · rw [List.filter_filter]
      have hcongr : nf.proxiesList.filter
          (fun pr => (pr.address == P) &&
            !(((fetchOnChainProxies p).2.map (fun info => info.address)).contains pr.address)) =
          nf.proxiesList.filter (fun pr => pr.address == P) := by
        refine List.filter_congr ?_
        intro pr _
        by_cases hpp : pr.address = P
        · rw [hpp, hcont]
          simp
        · simp [hpp]
      rw [hcongr]
      rfl
    · intro pr _
      by_cases hpp : pr.address = P
      · simp [Hook.kind, Hook.proxyAddressOf, hpp]
      · simp [Hook.kind, Hook.proxyAddressOf, hpp]
  rw [h1, h2, h3]
  omega

/-! Lemmas about the implementation checks and the run driver. -/

/-- checkImplementations, decomposed into its two phases. -/
theorem checkImplementations_eq (nf : NetworkFile) (p : ProjectHandle) (env : EthEnv) :
    checkImplementations nf p env =
      ((fetchOnChainImplementations p.implEvents).map
        (checkRemoteImplementation nf env)).flatten ++
        checkUnregisteredLocalImplementations nf (fetchOnChainImplementations p.implEvents) := rfl

/-- Every hook of the per-entry remote check carries the alias of the
entry and is one of the three contract-family kinds it can fire. -/
theorem mem_checkRemoteImplementation (nf : NetworkFile) (env : EthEnv) (info : ImplInfo)
    (h : Hook) (hm : h ∈ checkRemoteImplementation nf env info) :
    h.contractAliasOf = some info.aliasName ∧
      (h.kind = HookKind.missingRemoteContract ∨ h.kind = HookKind.mismatchingContractAddress ∨
        h.kind = HookKind.mismatchingContractBodyBytecode) := by
  by_cases hhc : nf.hasContract info.aliasName = true
  · simp only [checkRemoteImplementation, if_pos hhc] at hm
    rcases List.mem_append.mp hm with hma | hmb
    · by_cases hc : (info.address != (nf.contract info.aliasName).address) = true
      · rw [checkImplementationAddress, if_pos hc] at hma
        have hbe : h = Hook.onMismatchingContractAddress (nf.contract info.aliasName).address
            info.address info.aliasName info.address := by simpa using hma
        subst hbe
        exact ⟨rfl, Or.inr (Or.inl rfl)⟩
      · rw [checkImplementationAddress, if_neg hc] at hma
        cases hma
    · by_cases hc : (env.bytecodeDigest (env.getCode info.address) !=
          (nf.contract info.aliasName).bodyBytecodeHash) = true
      · rw [checkImplementationBytecode, if_pos hc] at hmb
        have hbe : h = Hook.onMismatchingContractBodyBytecode
            (nf.contract info.aliasName).bodyBytecodeHash
            (env.bytecodeDigest (env.getCode info.address)) info.aliasName info.address
            (env.bytecodeDigest (env.getCode info.address)) := by simpa using hmb
        subst hbe
        exact ⟨rfl, Or.inr (Or.inr rfl)⟩
      · rw [checkImplementationBytecode, if_neg hc] at hmb
        cases hmb
  · simp only [checkRemoteImplementation, if_neg hhc] at hm
    have hbe : h = Hook.onMissingRemoteContract "none" "one" info.aliasName info.address := by
      simpa using hm
    subst hbe
    exact ⟨rfl, Or.inl rfl⟩

/-- Every hook of the local-only contract check is an unregistered-local
contract hook. -/
theorem mem_checkUnregisteredLocalImplementations (nf : NetworkFile) (iis : List ImplInfo)
    (h : Hook) (hm : h ∈ checkUnregisteredLocalImplementations nf iis) :
    h.kind = HookKind.unregisteredLocalContract := by
  simp only [checkUnregisteredLocalImplementations] at hm
  obtain ⟨a, ha, hfe⟩ := List.mem_map.mp hm
  rw [← hfe]
  rfl

/-- Every hook of checkImplementations is of a contract-family kind. -/
theorem mem_checkImplementations_kind (nf : NetworkFile) (p : ProjectHandle) (env : EthEnv)
    (h : Hook) (hm : h ∈ checkImplementations nf p env) :
    h.kind = HookKind.missingRemoteContract ∨ h.kind = HookKind.mismatchingContractAddress ∨
      h.kind = HookKind.mismatchingContractBodyBytecode ∨
      h.kind = HookKind.unregisteredLocalContract := by
  rw [checkImplementations_eq] at hm
  rcases List.mem_append.mp hm with hma | hmb
  · obtain ⟨l, hl, hbm⟩ := List.mem_flatten.mp hma
    obtain ⟨i2, hi2, hfe⟩ := List.mem_map.mp hl
    rw [← hfe] at hbm
    obtain ⟨_, hk⟩ := mem_checkRemoteImplementation nf env i2 h hbm
    rcases hk with hk | hk | hk
    · exact Or.inl hk
    · exact Or.inr (Or.inl hk)
    · exact Or.inr (Or.inr (Or.inl hk))
  · exact Or.inr (Or.inr (Or.inr (mem_checkUnregisteredLocalImplementations nf _ h hmb)))

/-- Every hook of checkProvider is a provider-mismatch hook. -/
theorem mem_checkProvider_kind (nf : NetworkFile) (p : ProjectHandle) (h : Hook)
    (hm : h ∈ checkProvider nf p) : h.kind = HookKind.mismatchingProvider := by
  simp only [checkProvider] at hm
  by_cases hc : (some p.directoryAddress != nf.providerAddress) = true
  · rw [if_pos hc] at hm
    have hbe : h = Hook.onMismatchingProvider nf.providerAddress p.directoryAddress := by
      simpa using hm
    rw [hbe]
    rfl
  · rw [if_neg hc] at hm
    cases hm

/-! Claims. -/

/-- Claim C1: every entry of the reconciled implementation set is the
unique entry for its alias, carries the address of the chronologically
last ImplementationChanged event for that alias, and that address is
not the zero sentinel; hence an alias whose last event carries the zero
sentinel never appears in the set. -/
theorem C1_dedup_last_wins_zero_dropped (es : List ImplEvent) (info : ImplInfo)
    (h : info ∈ fetchOnChainImplementations es) :
    ((fetchOnChainImplementations es).filter
        (fun i => i.aliasName == info.aliasName)).length ≤ 1 ∧
      ((es.filter (fun e => e.contractName == info.aliasName)).getLast?).map
        (fun e => e.implementation) = some info.address ∧
      info.address ≠ ZERO_ADDRESS := by
  obtain ⟨h1, h2⟩ := fetchOnChainImplementations_last es info h
  exact ⟨fetchOnChainImplementations_dedup es info.aliasName, h1, h2⟩

/-- Witness for C1 on a history where Token is re-registered from 0xA to
0xB and Lib ends deregistered at the zero sentinel. -/
theorem C1_witness :
    ((fetchOnChainImplementations esW1).filter
        (fun i => i.aliasName == "Token")).length ≤ 1 ∧
      ((esW1.filter (fun e => e.contractName == "Token")).getLast?).map
        (fun e => e.implementation) = some "0xB" ∧
      "0xB" ≠ ZERO_ADDRESS :=
  C1_dedup_last_wins_zero_dropped esW1 { aliasName := "Token", address := "0xB" } (by decide)

/-- Claim C2 counterexample: the proxy at 0xP resolves to an
implementation registered under two aliases, and is also listed in the
descriptor; the run fires onMultipleProxyImplementations and then also
onUnregisteredLocalProxy for that same proxy address, so two hooks
report the same proxy. -/
theorem C2_counterexample :
    checkProxies nfC2 phC2 envNull =
      [Hook.onMultipleProxyImplementations "one" 2 "0xI",
       Hook.onUnregisteredLocalProxy "one" "none" "TokenA" "0xP" "0xI"] := by decide

/-- Claim C2 amended: when the resolved implementation of a proxy
matches more than one reconciled alias, onMultipleProxyImplementations
fires exactly once per ambiguous proxy event, the proxy is excluded
from the joined proxy set so no alias-based per-proxy hook carrying its
address fires; however, the excluded address is then missing from the
found set, so onUnregisteredLocalProxy additionally fires once per
descriptor proxy listed at that address. -/
theorem C2_multiple_matches (nf : NetworkFile) (p : ProjectHandle) (env : EthEnv) (P : String)
    (_hmem : ProxyEvent.mk P ∈ p.proxyEvents)
    (hamb : 1 < (matchingFor p P).length) :
    ((checkProxies nf p env).filter
        (fun h => h.kind == HookKind.multipleProxyImplementations)).length =
      (p.proxyEvents.filter (fun e => decide (1 < (matchingFor p e.proxy).length))).length ∧
      (fetchOnChainProxies p).2.filter (fun info => info.address == P) = [] ∧
      ((checkProxies nf p env).filter
        (fun h => h.isAliasBasedProxyHook && h.proxyAddressOf == some P)).length = 0 ∧
      ((checkProxies nf p env).filter
        (fun h => h.kind == HookKind.unregisteredLocalProxy &&
          h.proxyAddressOf == some P)).length =
        (nf.proxies.filter (fun pr => pr.address == P)).length := by
  have hsnd := snd_filter_empty_of p P (Or.inr hamb)
  exact ⟨multi_count nf p env, hsnd, aliasBased_count_zero nf p env P hsnd,
    unregLocal_count nf p env P hsnd⟩

/-- Witness for C2 at the ambiguous proxy 0xP. -/
theorem C2_witness :
    ((checkProxies nfC2 phC2 envNull).filter
        (fun h => h.kind == HookKind.multipleProxyImplementations)).length =
      (phC2.proxyEvents.filter
        (fun e => decide (1 < (matchingFor phC2 e.proxy).length))).length ∧
      (fetchOnChainProxies phC2).2.filter (fun info => info.address == "0xP") = [] ∧
      ((checkProxies nfC2 phC2 envNull).filter
        (fun h => h.isAliasBasedProxyHook && h.proxyAddressOf == some "0xP")).length = 0 ∧
      ((checkProxies nfC2 phC2 envNull).filter
        (fun h => h.kind == HookKind.unregisteredLocalProxy &&
          h.proxyAddressOf == some "0xP")).length =
        (nfC2.proxies.filter (fun pr => pr.address == "0xP")).length :=
  C2_multiple_matches nfC2 phC2 envNull "0xP" (by decide) (by decide)

/-- Claim C3 counterexample: a descriptor with no provider address and a
ledger directory at the zero sentinel fire a provider-mismatch hook, so
the provider comparison does not normalize the zero sentinel. -/
theorem C3_counterexample :
    checkProvider nfC3 phC3 = [Hook.onMismatchingProvider none ZERO_ADDRESS] := rfl

/-- Claim C3 amended: only the stdlib check normalizes the zero sentinel
to the logical none before comparing, so none on both sides fires no
hook; the provider check compares the raw directory address against the
descriptor field verbatim, so the same configuration fires
onMismatchingProvider. -/
theorem C3_stdlib_normalizes_provider_compares_verbatim (nf : NetworkFile) (p : ProjectHandle)
    (hstd : p.currentStdlib = ZERO_ADDRESS) (hsno : nf.stdlibAddress = none)
    (hdir : p.directoryAddress = ZERO_ADDRESS) (hpno : nf.providerAddress = none) :
    checkStdlib nf p = [] ∧
      checkProvider nf p = [Hook.onMismatchingProvider none ZERO_ADDRESS] := by
  constructor
  · simp [checkStdlib, hstd, hsno, jsOr]
  · simp [checkProvider, hdir, hpno]

/-- Witness for C3 at the zero-sentinel configuration. -/
theorem C3_witness :
    checkStdlib nfC3 phC3 = [] ∧
      checkProvider nfC3 phC3 = [Hook.onMismatchingProvider none ZERO_ADDRESS] :=
  C3_stdlib_normalizes_provider_compares_verbatim nfC3 phC3 rfl rfl rfl rfl

/-- Claim C4 counterexample: at a reconciled entry whose alias is absent
from the descriptor, the run fires the hook named onMissingRemoteContract
and fires no hook named onUnknownRemoteContract, contradicting the
claimed hook name. -/
theorem C4_counterexample :
    checkImplementations nfC4 phC4 envNull =
        [Hook.onMissingRemoteContract "none" "one" "Token" "0xA"] ∧
      ((checkImplementations nfC4 phC4 envNull).filter
        (fun h => h.kind == HookKind.unknownRemoteContract)).length = 0 := by
  exact ⟨rfl, by decide⟩

/-- Claim C4 amended: for every reconciled entry whose alias has no
contract entry in the descriptor, the engine fires the hook named
onMissingRemoteContract exactly once for that alias, fires no address
or bytecode hook for it, and fires no hook named
onUnknownRemoteContract at all. -/
theorem C4_missing_remote_contract (nf : NetworkFile) (p : ProjectHandle) (env : EthEnv)
    (info : ImplInfo) (hin : info ∈ fetchOnChainImplementations p.implEvents)
    (hno : nf.hasContract info.aliasName = false) :
    ((checkImplementations nf p env).filter
        (fun h => h.kind == HookKind.missingRemoteContract &&
          h.contractAliasOf == some info.aliasName)).length = 1 ∧
      ((checkImplementations nf p env).filter
        (fun h => (h.kind == HookKind.mismatchingContractAddress ||
            h.kind == HookKind.mismatchingContractBodyBytecode) &&
          h.contractAliasOf == some info.aliasName)).length = 0 ∧
      ((checkImplementations nf p env).filter
        (fun h => h.kind == HookKind.unknownRemoteContract)).length = 0 := by
  refine ⟨?_, ?_, ?_⟩
  · rw [checkImplementations_eq, List.filter_append, List.length_append]
    have hpart2 : ((checkUnregisteredLocalImplementations nf
        (fetchOnChainImplementations p.implEvents)).filter
        (fun h => h.kind == HookKind.missingRemoteContract &&
          h.contractAliasOf == some info.aliasName)).length = 0 := by
      rw [List.length_eq_zero, List.filter_eq_nil_iff]
      intro b hb hqb
      have hk := mem_checkUnregisteredLocalImplementations nf _ b hb
      obtain ⟨hq1, _⟩ := (Bool.and_eq_true _ _).mp hqb
      rw [hk] at hq1
      simp at hq1
    have hpart1 : (((fetchOnChainImplementations p.implEvents).map
        (checkRemoteImplementation nf env)).flatten.filter
        (fun h => h.kind == HookKind.missingRemoteContract &&
          h.contractAliasOf == some info.aliasName)).length =
        ((fetchOnChainImplementations p.implEvents).filter
          (fun i => i.aliasName == info.aliasName)).length := by
      refine map_flatten_filter_length _ _ _ _ ?_
      intro x _
      by_cases hxa : x.aliasName = info.aliasName
      · have hno2 : ¬ nf.hasContract x.aliasName = true := by
          rw [hxa, hno]
          simp
        simp only [checkRemoteImplementation, if_neg hno2]
        simp [Hook.kind, Hook.contractAliasOf, hxa]
      · by_cases hct : nf.hasContract x.aliasName = true
        · simp only [checkRemoteImplementation, if_pos hct, checkImplementationAddress,
            checkImplementationBytecode]
          split_ifs <;> simp_all [Hook.kind, Hook.contractAliasOf]
        · simp only [checkRemoteImplementation, if_neg hct]
          simp [Hook.kind, Hook.contractAliasOf, hxa]
    rw [hpart1, hpart2, fetchOnChainImplementations_unique p.implEvents info hin]
    rfl
  · rw [checkImplementations_eq, List.filter_append, List.length_append]
    have hpart2 : ((checkUnregisteredLocalImplementations nf
        (fetchOnChainImplementations p.implEvents)).filter
        (fun h => (h.kind == HookKind.mismatchingContractAddress ||
            h.kind == HookKind.mismatchingContractBodyBytecode) &&
          h.contractAliasOf == some info.aliasName)).length = 0 := by
      rw [List.length_eq_zero, List.filter_eq_nil_iff]
      intro b hb hqb
      have hk := mem_checkUnregisteredLocalImplementations nf _ b hb
      obtain ⟨hq1, _⟩ := (Bool.and_eq_true _ _).mp hqb
      rw [hk] at hq1
      simp at hq1
    have hpart1 : (((fetchOnChainImplementations p.implEvents).map
        (checkRemoteImplementation nf env)).flatten.filter
        (fun h => (h.kind == HookKind.mismatchingContractAddress ||
            h.kind == HookKind.mismatchingContractBodyBytecode) &&
          h.contractAliasOf == some info.aliasName)).length =
        ((fetchOnChainImplementations p.implEvents).filter (fun _ => false)).length := by
      refine map_flatten_filter_length _ _ _ _ ?_
      intro x _
      by_cases hxa : x.aliasName = info.aliasName
      · have hno2 : ¬ nf.hasContract x.aliasName = true := by
          rw [hxa, hno]
          simp
        simp only [checkRemoteImplementation, if_neg hno2]
        simp [Hook.kind, Hook.contractAliasOf]
      · by_cases hct : nf.hasContract x.aliasName = true
        · simp only [checkRemoteImplementation, if_pos hct, checkImplementationAddress,
            checkImplementationBytecode]
          split_ifs <;> simp_all [Hook.kind, Hook.contractAliasOf]
        · simp only [checkRemoteImplementation, if_neg hct]
          simp [Hook.kind, Hook.contractAliasOf]
    rw [hpart1, hpart2]
    simp
  · rw [checkImplementations_eq, List.filter_append, List.length_append]
    have hpart2 : ((checkUnregisteredLocalImplementations nf
        (fetchOnChainImplementations p.implEvents)).filter
        (fun h => h.kind == HookKind.unknownRemoteContract)).length = 0 := by
      rw [List.length_eq_zero, List.filter_eq_nil_iff]
      intro b hb hqb
      rw [mem_checkUnregisteredLocalImplementations nf _ b hb] at hqb
      simp at hqb
    have hpart1 : (((fetchOnChainImplementations p.implEvents).map
        (checkRemoteImplementation nf env)).flatten.filter
        (fun h => h.kind == HookKind.unknownRemoteContract)).length = 0 := by
      rw [List.length_eq_zero, List.filter_eq_nil_iff]
      intro b hb hqb
      obtain ⟨l, hl, hbm⟩ := List.mem_flatten.mp hb
      obtain ⟨i2, hi2, hfe⟩ := List.mem_map.mp hl
      rw [← hfe] at hbm
      obtain ⟨_, hk⟩ := mem_checkRemoteImplementation nf env i2 b hbm
      rcases hk with hk | hk | hk <;> rw [hk] at hqb <;> simp at hqb
    rw [hpart1, hpart2]

/-- Witness for C4 at the alias Token, registered remotely and absent
locally. -/
theorem C4_witness :
    ((checkImplementations nfC4 phC4 envNull).filter
        (fun h => h.kind == HookKind.missingRemoteContract &&
          h.contractAliasOf == some "Token")).length = 1 ∧
      ((checkImplementations nfC4 phC4 envNull).filter
        (fun h => (h.kind == HookKind.mismatchingContractAddress ||
            h.kind == HookKind.mismatchingContractBodyBytecode) &&
          h.contractAliasOf == some "Token")).length = 0 ∧
      ((checkImplementations nfC4 phC4 envNull).filter
        (fun h => h.kind == HookKind.unknownRemoteContract)).length = 0 :=
  C4_missing_remote_contract nfC4 phC4 envNull { aliasName := "Token", address := "0xA" }
    (by decide) (by decide)

/-- Claim C5 (code bug evidence): on a failing library resolution the
run aborts with a single error before any hook fires, but the surfaced
message interpolates the absent appAddress of the descriptor (the word
undefined) instead of the package address used for the fetch, and the
original cause is not attached, because the JavaScript Error
constructor discards its second argument. -/
theorem C5_error_drops_cause_and_address :
    call ledC5 nfC5 envNull (ProjState.mk none 0) =
      Except.error "Cannot fetch project contract from address undefined." := rfl

/-- Claim C6: when the resolved implementation of the proxy at a given
address matches no reconciled entry, one unregistered-implementation
hook carrying that address fires, the proxy is excluded from the joined
proxy set, and no alias-based per-proxy hook carrying that address
fires. -/
theorem C6_unregistered_proxy_implementation (nf : NetworkFile) (p : ProjectHandle)
    (env : EthEnv) (P : String)
    (hcount : (p.proxyEvents.filter (fun e => e.proxy == P)).length = 1)
    (hzero : matchingFor p P = []) :
    ((checkProxies nf p env).filter
        (fun h => h.kind == HookKind.unregisteredProxyImplementation &&
          h.proxyAddressOf == some P)).length = 1 ∧
      (fetchOnChainProxies p).2.filter (fun info => info.address == P) = [] ∧
      ((checkProxies nf p env).filter
        (fun h => h.isAliasBasedProxyHook && h.proxyAddressOf == some P)).length = 0 := by
  have hsnd := snd_filter_empty_of p P (Or.inl hzero)
  refine ⟨?_, hsnd, aliasBased_count_zero nf p env P hsnd⟩
  rw [unregImpl_count nf p env P hzero]
  exact hcount

/-- Witness for C6 at the proxy 0xP whose implementation 0xI matches no
reconciled entry. -/
theorem C6_witness :
    ((checkProxies nfW6 phW6 envNull).filter
        (fun h => h.kind == HookKind.unregisteredProxyImplementation &&
          h.proxyAddressOf == some "0xP")).length = 1 ∧
      (fetchOnChainProxies phW6).2.filter (fun info => info.address == "0xP") = [] ∧
      ((checkProxies nfW6 phW6 envNull).filter
        (fun h => h.isAliasBasedProxyHook && h.proxyAddressOf == some "0xP")).length = 0 :=
  C6_unregistered_proxy_implementation nfW6 phW6 envNull "0xP" (by decide) (by decide)

/-- Claim C7: a run over a library descriptor performs exactly the
provider check and the implementation check, then fires onEndChecking;
no version, package, stdlib or proxy hook appears in the trace. -/
theorem C7_library_run (led : Ledger) (nf : NetworkFile) (p : ProjectHandle) (env : EthEnv)
    (hlib : nf.isLib = true)
    (hres : led.libProjectFetch nf.packageAddress nf.version = Except.ok p) :
    call led nf env (ProjState.mk none 0) =
      Except.ok ((checkProvider nf p ++ checkImplementations nf p env) ++
        [Hook.onEndChecking], ProjState.mk (some p) 1) ∧
      ∀ h ∈ checkProvider nf p ++ checkImplementations nf p env,
        (h.kind == HookKind.mismatchingVersion || h.kind == HookKind.mismatchingPackage ||
         h.kind == HookKind.mismatchingStdlib || h.kind == HookKind.missingRemoteProxy ||
         h.kind == HookKind.mismatchingProxyAlias ||
         h.kind == HookKind.mismatchingProxyImplementation ||
         h.kind == HookKind.unregisteredLocalProxy ||
         h.kind == HookKind.multipleProxyImplementations ||
         h.kind == HookKind.unregisteredProxyImplementation ||
         h.kind == HookKind.endChecking) = false := by
  constructor
  · simp [call, projectCall, fetchProject, hlib, hres, checkLib]
  · intro h hm
    rcases List.mem_append.mp hm with hma | hmb
    · rw [mem_checkProvider_kind nf p h hma]
      rfl
    · rcases mem_checkImplementations_kind nf p env h hmb with hk | hk | hk | hk <;>
        rw [hk] <;> rfl

/-- Witness for C7 at a resolving library ledger. -/
theorem C7_witness :
    call ledW7 nfW7 envNull (ProjState.mk none 0) =
      Except.ok ((checkProvider nfW7 phW7 ++ checkImplementations nfW7 phW7 envNull) ++
        [Hook.onEndChecking], ProjState.mk (some phW7) 1) ∧
      ∀ h ∈ checkProvider nfW7 phW7 ++ checkImplementations nfW7 phW7 envNull,
        (h.kind == HookKind.mismatchingVersion || h.kind == HookKind.mismatchingPackage ||
         h.kind == HookKind.mismatchingStdlib || h.kind == HookKind.missingRemoteProxy ||
         h.kind == HookKind.mismatchingProxyAlias ||
         h.kind == HookKind.mismatchingProxyImplementation ||
         h.kind == HookKind.unregisteredLocalProxy ||
         h.kind == HookKind.multipleProxyImplementations ||
         h.kind == HookKind.unregisteredProxyImplementation ||
         h.kind == HookKind.endChecking) = false :=
  C7_library_run ledW7 nfW7 phW7 envNull rfl rfl

/-- Claim C8: with an unset descriptor stdlib address and the zero
sentinel reported by the ledger, the stdlib check fires no hook. -/
theorem C8_stdlib_none_no_hook (nf : NetworkFile) (p : ProjectHandle)
    (h1 : nf.stdlibAddress = none) (h2 : p.currentStdlib = ZERO_ADDRESS) :
    checkStdlib nf p = [] := by
  simp [checkStdlib, h1, h2, jsOr]

/-- Witness for C8 at the base descriptor and handle. -/
theorem C8_witness : checkStdlib nfW8 phW8 = [] :=
  C8_stdlib_none_no_hook nfW8 phW8 rfl rfl

/-- Claim C10: a successful project call caches the handle, and every
later project call returns the same handle with the state unchanged, so
the resolution count does not grow: the deployment handle is resolved
at most once per checker instance. -/
theorem C10_project_resolved_once (led : Ledger) (nf : NetworkFile) (st st2 : ProjState)
    (p : ProjectHandle)
    (h : projectCall led nf st = Except.ok (p, st2)) :
    st2.cached = some p ∧ projectCall led nf st2 = Except.ok (p, st2) := by
  unfold projectCall at h ⊢
  cases hc : st.cached with
  | some q =>
    rw [hc] at h
    have h2 : q = p ∧ st = st2 := by simpa using h
    obtain ⟨rfl, rfl⟩ := h2
    refine ⟨hc, ?_⟩
    rw [hc]
  | none =>
    rw [hc] at h
    cases hf : fetchProject led nf with
    | ok p0 =>
      rw [hf] at h
      have h2 : p0 = p ∧ ProjState.mk (some p0) (st.fetchCount + 1) = st2 := by
        simpa using h
      obtain ⟨rfl, hst⟩ := h2
      rw [← hst]
      exact ⟨rfl, rfl⟩
    | error e =>
      rw [hf] at h
      exact absurd h (by simp)

/-- Witness for C10: after the first resolution the state caches the
handle and the second call returns it unchanged. -/
theorem C10_witness :
    (ProjState.mk (some phW10) 1).cached = some phW10 ∧
      projectCall ledW10 nfW10 (ProjState.mk (some phW10) 1) =
        Except.ok (phW10, ProjState.mk (some phW10) 1) :=
  C10_project_resolved_once ledW10 nfW10 (ProjState.mk none 0) (ProjState.mk (some phW10) 1)
    phW10 rfl

end ZosStatus
